import Mathlib

/-!
Verification of the scheduled, lock-coordinated ingestion pipeline of the
dash-stock-dashboard repository, as a shallow embedding of the relevant
source modules:

  * `src/data/market_time.py` — the market calendar (`MarketSession`,
    `to_ny`), embedded below as `TimeOfDay`, `DateTime`, `MarketSession`
    and its four predicates, and `to_ny`.
  * `src/scheduler/ingest_job.py` — the ingestion orchestrator
    (`Ingestor.ingest_daily_after_close`, `Ingestor._run_ingestion`),
    embedded as `daily_guard`, `ingest_daily_after_close`,
    `tickerBody`, `processTicker`, `runLoop`, `mainBody`, `run_ingestion`.
  * `src/data/yfinance_fetcher.py` — only `filter_to_regular_session`
    is repository logic on the ingestion path; the network fetches are
    external collaborators.

Collaborator calls (Supabase repo, yfinance fetch, distributed lock) are
modelled by an environment `Env` that fixes the outcome of each remote
call; every such call may fail, which is modelled with `Except`.  The run
procedure is embedded as a function producing the trace of collaborator
calls it issues, together with the exception (if any) it propagates to
its caller, mirroring the Python try/except/finally structure statement
by statement.
-/

/-- Python `datetime.time` restricted to what the calendar code reads:
hour, minute, second, microsecond.  Python compares `time` values
lexicographically on these fields. -/
structure TimeOfDay where
  hour : Nat
  minute : Nat
  second : Nat
  microsecond : Nat
deriving DecidableEq

/-- Lexicographic strict order on times, as Python `<` on `datetime.time`. -/
def TimeOfDay.lt (a b : TimeOfDay) : Bool :=
  if a.hour ≠ b.hour then decide (a.hour < b.hour)
  else if a.minute ≠ b.minute then decide (a.minute < b.minute)
  else if a.second ≠ b.second then decide (a.second < b.second)
  else decide (a.microsecond < b.microsecond)

/-- Non-strict order on times, as Python `<=` on `datetime.time`. -/
def TimeOfDay.le (a b : TimeOfDay) : Bool :=
  a == b || TimeOfDay.lt a b

/-- Python `datetime.datetime` restricted to what the calendar code reads:
the weekday (Python `weekday()`: 0 = Monday .. 6 = Sunday), the local
time-of-day, and the tzinfo, where `none` models a timezone-naive value
and `some off` an awareness with fixed utc offset `off` in minutes. -/
structure DateTime where
  weekday : Nat
  timeOfDay : TimeOfDay
  tz : Option Int
deriving DecidableEq

/-- `MarketSession` dataclass from `src/data/market_time.py`. -/
structure MarketSession where
  open_time : TimeOfDay
  close_time : TimeOfDay
deriving DecidableEq

/-- The default `MarketSession()`: open 09:30, close 16:00. -/
def msess : MarketSession :=
  { open_time := ⟨9, 30, 0, 0⟩, close_time := ⟨16, 0, 0, 0⟩ }

/-- `MarketSession.is_weekday`: `dt_ny.weekday() < 5`.  Total: Python
`weekday()` is defined for naive and aware datetimes alike. -/
def MarketSession.is_weekday (_s : MarketSession) (dt_ny : DateTime) : Bool :=
  decide (dt_ny.weekday < 5)

/-- `MarketSession.is_in_session`: returns `False` off-weekdays, else
compares the time-of-day (`timetz().replace(tzinfo=None)`, i.e. the tz
information is stripped, never consulted) against the inclusive bounds. -/
def MarketSession.is_in_session (s : MarketSession) (dt_ny : DateTime) : Bool :=
  if s.is_weekday dt_ny then
    s.open_time.le dt_ny.timeOfDay && dt_ny.timeOfDay.le s.close_time
  else
    false

/-- `MarketSession.is_before_open`: strict comparison of the time-of-day
against the open bound. -/
def MarketSession.is_before_open (s : MarketSession) (dt_ny : DateTime) : Bool :=
  TimeOfDay.lt dt_ny.timeOfDay s.open_time

/-- `MarketSession.is_after_close`: strict comparison of the time-of-day
against the close bound. -/
def MarketSession.is_after_close (s : MarketSession) (dt_ny : DateTime) : Bool :=
  TimeOfDay.lt s.close_time dt_ny.timeOfDay

/-- `to_ny` from `src/data/market_time.py`: raises `ValueError` on a
timezone-naive datetime, otherwise converts with `astimezone(NY_TZ)`.
The astimezone conversion itself depends on the external tz database and
is taken as a parameter `astz`; only the naive check is repository logic. -/
def to_ny (astz : DateTime → DateTime) (dt : DateTime) : Except String DateTime :=
  match dt.tz with
  | none => .error "Datetime must be timezone-aware"
  | some _ => .ok (astz dt)

/-- A Wednesday 12:00 naive instant (no tzinfo). -/
def naiveNoonWed : DateTime := ⟨2, ⟨12, 0, 0, 0⟩, none⟩

/-- A Saturday 16:30 NY-aware instant (weekday 5, EDT offset). -/
def satAfterClose : DateTime := ⟨5, ⟨16, 30, 0, 0⟩, some (-240)⟩

/-- A Monday 16:30 NY-aware instant (weekday 0, EDT offset). -/
def monAfterClose : DateTime := ⟨0, ⟨16, 30, 0, 0⟩, some (-240)⟩

/-- Claim C8: for every instant, is_in_session is the conjunction of
is_weekday with the inclusive bounds check on the time-of-day.  The
statement quantifies over all embedded instants, in particular all
timezone-aware ones. -/
theorem is_in_session_iff_weekday_and_bounds (s : MarketSession) (dt : DateTime) :
    s.is_in_session dt = true ↔
      (s.is_weekday dt = true ∧
        (s.open_time.le dt.timeOfDay = true ∧ dt.timeOfDay.le s.close_time = true)) := by
  cases h : s.is_weekday dt <;>
    simp [MarketSession.is_in_session, h]

/-- Claim C10: is_before_open and is_after_close read only the instant's
time-of-day, never the weekday; whenever the time-of-day is strictly
after the close bound, is_after_close holds — also on instants whose
weekday is Saturday or Sunday — whereas is_in_session is false on any
non-weekday instant. -/
theorem after_close_ignores_weekday (s : MarketSession) (d₁ d₂ : DateTime)
    (h : d₁.timeOfDay = d₂.timeOfDay) :
    (s.is_after_close d₁ = s.is_after_close d₂ ∧
      s.is_before_open d₁ = s.is_before_open d₂) ∧
    (TimeOfDay.lt s.close_time d₁.timeOfDay = true → s.is_after_close d₁ = true) ∧
    (s.is_weekday d₁ = false → s.is_in_session d₁ = false) := by
  refine ⟨⟨?_, ?_⟩, ?_, ?_⟩
  · simp [MarketSession.is_after_close, h]
  · simp [MarketSession.is_before_open, h]
  · intro hlt
    simpa [MarketSession.is_after_close] using hlt
  · intro hw
    simp [MarketSession.is_in_session, hw]

/-- Witness for C10 at concrete instants: a Saturday 16:30 instant agrees
with a Monday 16:30 instant on is_after_close, and is_after_close holds
on the Saturday instant while is_in_session does not. -/
theorem after_close_ignores_weekday_witness :
    (msess.is_after_close satAfterClose = msess.is_after_close monAfterClose) ∧
    msess.is_after_close satAfterClose = true ∧
    msess.is_in_session satAfterClose = false :=
  ⟨(after_close_ignores_weekday msess satAfterClose monAfterClose rfl).1.1,
   (after_close_ignores_weekday msess satAfterClose monAfterClose rfl).2.1 (by decide),
   (after_close_ignores_weekday msess satAfterClose monAfterClose rfl).2.2 (by decide)⟩

/-- Claim C7 counterexample: the four MarketSession operations evaluated
at a timezone-naive instant return booleans; none of them fails.  In the
source their bodies contain no raise path at all (`weekday()`,
`timetz().replace(tzinfo=None)` and time comparison are total for naive
datetimes), which is why their embedding is Bool-valued; this refutes
the claim that a naive instant makes them fail with InvalidInput. -/
theorem calendar_ops_total_on_naive_counterexample :
    msess.is_weekday naiveNoonWed = true ∧
    msess.is_in_session naiveNoonWed = true ∧
    msess.is_before_open naiveNoonWed = false ∧
    msess.is_after_close naiveNoonWed = false := by
  decide

/-- Claim C7 (amended): only the `to_ny` conversion fails on a
timezone-naive instant (with the ValueError message of the source); the
four MarketSession operations never consult the tzinfo at all — their
results are invariant under replacing the tz field — so they return
booleans on naive instants instead of failing. -/
theorem only_to_ny_rejects_naive (astz : DateTime → DateTime)
    (s : MarketSession) (dt : DateTime) (z : Option Int)
    (h : dt.tz = none) :
    to_ny astz dt = .error "Datetime must be timezone-aware" ∧
    (s.is_weekday { dt with tz := z } = s.is_weekday dt ∧
      s.is_in_session { dt with tz := z } = s.is_in_session dt ∧
      s.is_before_open { dt with tz := z } = s.is_before_open dt ∧
      s.is_after_close { dt with tz := z } = s.is_after_close dt) := by
  refine ⟨?_, rfl, rfl, rfl, rfl⟩
  simp [to_ny, h]

/-- Witness for the amended C7 at a concrete naive instant. -/
theorem only_to_ny_rejects_naive_witness :
    to_ny id naiveNoonWed = .error "Datetime must be timezone-aware" ∧
    (msess.is_weekday { naiveNoonWed with tz := some 0 } = msess.is_weekday naiveNoonWed ∧
      msess.is_in_session { naiveNoonWed with tz := some 0 } = msess.is_in_session naiveNoonWed ∧
      msess.is_before_open { naiveNoonWed with tz := some 0 } = msess.is_before_open naiveNoonWed ∧
      msess.is_after_close { naiveNoonWed with tz := some 0 } = msess.is_after_close naiveNoonWed) :=
  only_to_ny_rejects_naive id msess naiveNoonWed (some 0) rfl

/-- Collaborator error, carrying the Python exception's `str(e)`. -/
abbrev Err := String

/-- An absolute instant (utc timestamp in seconds); Python `timedelta`
arithmetic on aware datetimes is integer arithmetic on this. -/
abbrev Time := Int

/-- A fetched OHLC frame, reduced to the bar instants the repository
logic reads: `filter_to_regular_session` inspects only the NY-converted
index, so a frame is modelled as the list of NY-local bar datetimes. -/
abbrev Frame := List DateTime

/-- `filter_to_regular_session` from `src/data/yfinance_fetcher.py`:
builds a default `MarketSession()` and keeps the bars whose NY instant
is a weekday with a time-of-day inside the inclusive session bounds
(the mask appends False off-weekdays, else the bounds check). -/
def filter_to_regular_session (df : Frame) : Frame :=
  df.filter (fun dtny =>
    if msess.is_weekday dtny then
      msess.open_time.le dtny.timeOfDay && dtny.timeOfDay.le msess.close_time
    else
      false)

/-- One issued collaborator call of a run, in issue order: the lock RPCs,
the per-symbol repo/fetch calls, and the ingestion-status writes with
the arguments they were issued with. -/
inductive Event where
  | acquireCall
  | getLatestCall (ticker : String)
  | fetchIntraCall (ticker : String) (start : Option Time)
  | upsertIntraCall (ticker : String)
  | fetchDailyCall (ticker : String)
  | upsertDailyCall (ticker : String)
  | statusWrite (lastSuccessUtc : Option Time) (lastError : Option String)
  | releaseCall
deriving DecidableEq

/-- Outcomes of the collaborator calls a run can issue (lock, repo,
fetcher), each fallible (`Except`) since all are remote operations, plus
the value `datetime.now(timezone.utc)` takes at the end of the run.
`set_ingestion_status` has one outcome used for every status write of
the run. -/
structure Env where
  acquire : Except Err Bool
  release : Except Err Bool
  get_latest_intraday_ts : String → Except Err (Option Time)
  fetch_intraday_30m : String → Option Time → Except Err Frame
  fetch_daily_1d : String → Except Err Frame
  upsert_intraday_30m : String → Frame → Except Err Nat
  upsert_daily_1d : String → Frame → Except Err Nat
  set_ingestion_status : Except Err Unit
  finishTime : Time

/-- The body of the per-ticker `try` in `Ingestor._run_ingestion`:
if intraday — latest persisted timestamp, start two days earlier when
present (`last_ts - timedelta(days=2)`, 2 * 86400 seconds), fetch,
session filter, upsert; then if daily — fetch (12mo period) and upsert.
Returns the issued calls and the first exception, if any.  The row-count
accumulation of the source feeds only a log line and is not modelled. -/
def tickerBody (env : Env) (intraday daily : Bool) (ticker : String) :
    List Event × Except Err Unit :=
  let intra : List Event × Except Err Unit :=
    if intraday then
      match env.get_latest_intraday_ts ticker with
      | .error e => ([Event.getLatestCall ticker], .error e)
      | .ok last_ts =>
        let start := last_ts.map (fun ts => ts - 2 * 86400)
        match env.fetch_intraday_30m ticker start with
        | .error e =>
          ([Event.getLatestCall ticker, Event.fetchIntraCall ticker start], .error e)
        | .ok df =>
          let _df30 := filter_to_regular_session df
          match env.upsert_intraday_30m ticker _df30 with
          | .error e =>
            ([Event.getLatestCall ticker, Event.fetchIntraCall ticker start,
              Event.upsertIntraCall ticker], .error e)
          | .ok _ =>
            ([Event.getLatestCall ticker, Event.fetchIntraCall ticker start,
              Event.upsertIntraCall ticker], .ok ())
    else ([], .ok ())
  match intra with
  | (evs, .error e) => (evs, .error e)
  | (evs, .ok _) =>
    if daily then
      match env.fetch_daily_1d ticker with
      | .error e => (evs ++ [Event.fetchDailyCall ticker], .error e)
      | .ok df =>
        match env.upsert_daily_1d ticker df with
        | .error e =>
          (evs ++ [Event.fetchDailyCall ticker, Event.upsertDailyCall ticker], .error e)
        | .ok _ =>
          (evs ++ [Event.fetchDailyCall ticker, Event.upsertDailyCall ticker], .ok ())
    else (evs, .ok ())

/-- One iteration of the per-symbol loop: the body in a `try` whose
`except` logs and issues a status write with the symbol-qualified error
and continues.  The returned error is the exception escaping the
iteration — which happens exactly when that status write itself raises. -/
def processTicker (env : Env) (intraday daily : Bool) (ticker : String) :
    List Event × Option Err :=
  match tickerBody env intraday daily ticker with
  | (evs, .ok _) => (evs, none)
  | (evs, .error e) =>
    let evs2 := evs ++ [Event.statusWrite none (some (ticker ++ ": " ++ e))]
    match env.set_ingestion_status with
    | .ok _ => (evs2, none)
    | .error e2 => (evs2, some e2)

/-- The per-symbol loop over the configured tickers, in order, stopping
only when an exception escapes an iteration. -/
def runLoop (env : Env) (intraday daily : Bool) : List String → List Event × Option Err
  | [] => ([], none)
  | t :: rest =>
    match processTicker env intraday daily t with
    | (evs, some e) => (evs, some e)
    | (evs, none) =>
      let r := runLoop env intraday daily rest
      (evs ++ r.1, r.2)

/-- The outer `try` block of `Ingestor._run_ingestion`: acquire, early
return on a false acquire, the per-symbol loop, then the unconditional
run-completion status write `(finished, None)`.  Returns the issued
calls, the final value of the `acquired` flag, and the block's result. -/
def mainBody (env : Env) (intraday daily : Bool) (tickers : List String) :
    List Event × Bool × Except Err Unit :=
  match env.acquire with
  | .error e => ([Event.acquireCall], false, .error e)
  | .ok false => ([Event.acquireCall], false, .ok ())
  | .ok true =>
    let loop := runLoop env intraday daily tickers
    match loop.2 with
    | some e => (Event.acquireCall :: loop.1, true, .error e)
    | none =>
      let evs2 := Event.acquireCall :: loop.1 ++ [Event.statusWrite (some env.finishTime) none]
      match env.set_ingestion_status with
      | .ok _ => (evs2, true, .ok ())
      | .error e => (evs2, true, .error e)

/-- `Ingestor._run_ingestion`: the outer try block, then its `except`
handler (status write `(None, str(e))`, whose own failure is the only
exception the procedure can propagate), then the `finally` (release
attempted iff the acquired flag was set, its outcome discarded by the
source's inner try/except).  Result: (issued-call trace, exception
propagated to the caller or `none` for a normal return). -/
def run_ingestion (env : Env) (intraday daily : Bool) (tickers : List String) :
    List Event × Option Err :=
  let body := mainBody env intraday daily tickers
  let handler : List Event × Option Err :=
    match body.2.2 with
    | .ok _ => ([], none)
    | .error e =>
      ([Event.statusWrite none (some e)],
        match env.set_ingestion_status with
        | .ok _ => none
        | .error e2 => some e2)
  let fin : List Event := if body.2.1 then [Event.releaseCall] else []
  (body.1 ++ handler.1 ++ fin, handler.2)

/-- The guard sequence of `Ingestor.ingest_daily_after_close` over the
current NY instant: weekday, strictly after close, not in the first five
minutes of hour 16, hour not greater than 18.  True means the method
falls through to `_run_ingestion(intraday=False, daily=True)`. -/
def daily_guard (s : MarketSession) (dt_ny : DateTime) : Bool :=
  if !(s.is_weekday dt_ny) then false
  else if !(s.is_after_close dt_ny) then false
  else if dt_ny.timeOfDay.hour == 16 && decide (dt_ny.timeOfDay.minute < 5) then false
  else if decide (18 < dt_ny.timeOfDay.hour) then false
  else true

/-- `Ingestor.ingest_daily_after_close` at the NY instant `dt_ny`:
a no-op unless the guard sequence passes, else the daily run. -/
def ingest_daily_after_close (env : Env) (dt_ny : DateTime) (tickers : List String) :
    List Event × Option Err :=
  if daily_guard msess dt_ny then run_ingestion env false true tickers
  else ([], none)

/-- `Ingestor.ingest_intraday_if_market_open` at the NY instant `dt_ny`:
a no-op outside the session, else the intraday run. -/
def ingest_intraday_if_market_open (env : Env) (dt_ny : DateTime) (tickers : List String) :
    List Event × Option Err :=
  if msess.is_in_session dt_ny then run_ingestion env true false tickers
  else ([], none)

/-- Arguments of the last ingestion-status write in a trace, if any. -/
def lastStatusWrite : List Event → Option (Option Time × Option String)
  | [] => none
  | Event.statusWrite a b :: rest =>
    match lastStatusWrite rest with
    | none => some (a, b)
    | some r => some r
  | _ :: rest => lastStatusWrite rest

/-- Every call issued by the per-ticker body concerns that ticker, and an
intraday fetch is always issued with the start derived from the latest
persisted timestamp: two days (2 * 86400 s) before it when present,
absent otherwise. -/
theorem tickerBody_mem (env : Env) (i d : Bool) (t : String) (ev : Event)
    (h : ev ∈ (tickerBody env i d t).1) :
    ev = Event.getLatestCall t ∨
      (∃ r, env.get_latest_intraday_ts t = .ok r ∧
        ev = Event.fetchIntraCall t (r.map (fun ts => ts - 2 * 86400))) ∨
      ev = Event.upsertIntraCall t ∨
      ev = Event.fetchDailyCall t ∨
      ev = Event.upsertDailyCall t := by
  cases i with
  | false =>
    cases d with
    | false =>
      simp [tickerBody] at h
    | true =>
      rcases hf : env.fetch_daily_1d t with e | df
      · simp [tickerBody, hf] at h
        subst h; tauto
      · rcases hu : env.upsert_daily_1d t df with e | n <;>
        · simp [tickerBody, hf, hu] at h
          rcases h with h | h <;> subst h <;> tauto
  | true =>
    rcases hgl : env.get_latest_intraday_ts t with e | r
    · simp [tickerBody, hgl] at h
      subst h; tauto
    · simp [tickerBody, hgl] at h
      rcases hfe : env.fetch_intraday_30m t (Option.map (fun ts => ts - 172800) r)
        with e | df
      · simp [hfe] at h
        rcases h with h | h
        · subst h; tauto
        · subst h; exact Or.inr (Or.inl ⟨r, rfl, rfl⟩)
      · simp only [hfe] at h
        rcases hu : env.upsert_intraday_30m t (filter_to_regular_session df) with e | n
        · simp [hu] at h
          rcases h with h | h | h
          · subst h; tauto
          · subst h; exact Or.inr (Or.inl ⟨r, rfl, rfl⟩)
          · subst h; tauto
        · simp only [hu] at h
          cases d with
          | false =>
            simp at h
            rcases h with h | h | h
            · subst h; tauto
            · subst h; exact Or.inr (Or.inl ⟨r, rfl, rfl⟩)
            · subst h; tauto
          | true =>
            rcases hfd : env.fetch_daily_1d t with e | dfd
            · simp [hfd] at h
              rcases h with h | h | h | h
              · subst h; tauto
              · subst h; exact Or.inr (Or.inl ⟨r, rfl, rfl⟩)
              · subst h; tauto
              · subst h; tauto
            · simp only [hfd] at h
              rcases hud : env.upsert_daily_1d t dfd with e | m <;>
              · simp [hud] at h
                rcases h with h | h | h | h | h
                · subst h; tauto
                · subst h; exact Or.inr (Or.inl ⟨r, rfl, rfl⟩)
                · subst h; tauto
                · subst h; tauto
                · subst h; tauto

/-- A per-symbol iteration issues only body calls plus possibly one
symbol-qualified error status write. -/
theorem processTicker_mem (env : Env) (i d : Bool) (t : String) (ev : Event)
    (h : ev ∈ (processTicker env i d t).1) :
    ev ∈ (tickerBody env i d t).1 ∨ ∃ m, ev = Event.statusWrite none (some m) := by
  rcases htb : tickerBody env i d t with ⟨evs, res⟩
  cases res with
  | ok u =>
    simp only [processTicker, htb] at h
    exact Or.inl h
  | error e =>
    rcases hs : env.set_ingestion_status with e2 | u <;>
    · simp only [processTicker, htb, hs] at h
      rcases List.mem_append.mp h with h | h
      · exact Or.inl h
      · exact Or.inr ⟨t ++ ": " ++ e, by simpa using h⟩

/-- Every call issued by the per-symbol loop belongs to the iteration of
one of the processed tickers. -/
theorem runLoop_mem (env : Env) (i d : Bool) :
    ∀ (l : List String) (ev : Event), ev ∈ (runLoop env i d l).1 →
      ∃ t ∈ l, ev ∈ (processTicker env i d t).1 := by
  intro l
  induction l with
  | nil => intro ev h; simp [runLoop] at h
  | cons t rest ih =>
    intro ev h
    rcases hp : processTicker env i d t with ⟨evs, esc⟩
    cases esc with
    | some e =>
      simp only [runLoop, hp] at h
      exact ⟨t, by simp, by rw [hp]; exact h⟩
    | none =>
      simp only [runLoop, hp] at h
      rcases List.mem_append.mp h with h | h
      · exact ⟨t, by simp, by rw [hp]; exact h⟩
      · rcases ih ev h with ⟨t2, ht2, hm⟩
        exact ⟨t2, by simp [ht2], hm⟩

/-- The per-symbol loop never issues a lock release. -/
theorem runLoop_no_release (env : Env) (i d : Bool) (l : List String) :
    Event.releaseCall ∉ (runLoop env i d l).1 := by
  intro h
  rcases runLoop_mem env i d l Event.releaseCall h with ⟨t, _, hm⟩
  rcases processTicker_mem env i d t Event.releaseCall hm with hb | ⟨m, hm2⟩
  · rcases tickerBody_mem env i d t Event.releaseCall hb with h1 | ⟨r, _, h2⟩ | h3 | h4 | h5 <;>
      simp_all
  · simp at hm2

/-- When the status-write collaborator succeeds, no exception escapes a
per-symbol iteration. -/
theorem processTicker_esc_none (env : Env) (i d : Bool) (t : String)
    (hst : env.set_ingestion_status = .ok ()) :
    (processTicker env i d t).2 = none := by
  rcases htb : tickerBody env i d t with ⟨evs, res⟩
  cases res with
  | ok u => simp [processTicker, htb]
  | error e => simp [processTicker, htb, hst]

/-- When the status-write collaborator succeeds, no exception escapes the
per-symbol loop. -/
theorem runLoop_esc_none (env : Env) (i d : Bool)
    (hst : env.set_ingestion_status = .ok ()) :
    ∀ l : List String, (runLoop env i d l).2 = none := by
  intro l
  induction l with
  | nil => simp [runLoop]
  | cons t rest ih =>
    rcases hp : processTicker env i d t with ⟨evs, esc⟩
    have := processTicker_esc_none env i d t hst
    rw [hp] at this
    simp at this
    subst this
    simp [runLoop, hp, ih]

/-- The last status write of a concatenation is that of the second part
when it has one, else that of the first. -/
theorem lastStatusWrite_append (l1 l2 : List Event) :
    lastStatusWrite (l1 ++ l2) =
      match lastStatusWrite l2 with
      | some r => some r
      | none => lastStatusWrite l1 := by
  induction l1 with
  | nil =>
    rcases h : lastStatusWrite l2 with _ | r <;> simp [lastStatusWrite, h]
  | cons e rest ih =>
    cases e with
    | statusWrite a b =>
      rcases h : lastStatusWrite l2 with _ | r <;>
        simp [lastStatusWrite, ih, h]
    | acquireCall => simpa [lastStatusWrite] using ih
    | getLatestCall t => simpa [lastStatusWrite] using ih
    | fetchIntraCall t s => simpa [lastStatusWrite] using ih
    | upsertIntraCall t => simpa [lastStatusWrite] using ih
    | fetchDailyCall t => simpa [lastStatusWrite] using ih
    | upsertDailyCall t => simpa [lastStatusWrite] using ih
    | releaseCall => simpa [lastStatusWrite] using ih

/-- A baseline environment in which every collaborator call succeeds:
the lock is free, fetches return empty frames, upserts report one row,
the latest persisted intraday timestamp is 200000, status writes
succeed, and the run finishes at instant 1000. -/
def okEnv : Env where
  acquire := .ok true
  release := .ok true
  get_latest_intraday_ts := fun _ => .ok (some 200000)
  fetch_intraday_30m := fun _ _ => .ok []
  fetch_daily_1d := fun _ => .ok []
  upsert_intraday_30m := fun _ _ => .ok 1
  upsert_daily_1d := fun _ _ => .ok 1
  set_ingestion_status := .ok ()
  finishTime := 1000

/-- okEnv with a contended lock: acquire returns false. -/
def envLockHeld : Env := { okEnv with acquire := .ok false }

/-- okEnv whose daily fetch raises for the symbol BAD only. -/
def envBadDaily : Env :=
  { okEnv with fetch_daily_1d := fun t => if t == "BAD" then .error "boom" else .ok [] }

/-- okEnv whose status-write collaborator always raises. -/
def envStatusDown : Env := { okEnv with set_ingestion_status := .error "db down" }

/-- okEnv whose lock acquire raises (a failure outside the per-symbol
try region) while status writes still succeed. -/
def envAcquireRaises : Env := { okEnv with acquire := .error "rpc down" }

/-- okEnv where both the acquire call and every status write raise. -/
def envAcquireAndStatusDown : Env :=
  { okEnv with acquire := .error "rpc down", set_ingestion_status := .error "db down" }

/-- Claim C4: when acquire() returns false, the run procedure issues no
fetch, upsert or status-write call — its whole trace is the single
acquire call — and it returns normally (propagates nothing). -/
theorem acquire_false_is_noop (env : Env) (i d : Bool) (tks : List String)
    (h : env.acquire = .ok false) :
    run_ingestion env i d tks = ([Event.acquireCall], none) := by
  simp [run_ingestion, mainBody, h]

/-- Witness for C4 at a concrete contended-lock environment. -/
theorem acquire_false_is_noop_witness :
    run_ingestion envLockHeld true true ["AAPL", "NVDA"] = ([Event.acquireCall], none) :=
  acquire_false_is_noop envLockHeld true true ["AAPL", "NVDA"] rfl

/-- A weekday (Wednesday) 16:02 NY instant. -/
def wed1602 : DateTime := ⟨2, ⟨16, 2, 0, 0⟩, some (-240)⟩

/-- A weekday (Wednesday) 16:05 NY instant. -/
def wed1605 : DateTime := ⟨2, ⟨16, 5, 0, 0⟩, some (-240)⟩

/-- A weekday (Wednesday) 18:30 NY instant. -/
def wed1830 : DateTime := ⟨2, ⟨18, 30, 0, 0⟩, some (-240)⟩

/-- Claim C2, evaluated at the code: at 16:02 the entry point is a no-op
and at 16:05 it proceeds, as the claim says; but at 18:30 — past the
two-hour ceiling, where the claim (and the comment in the source) says
no-op — the guard passes and the ingestion run is entered, because the
source tests `dt_ny.hour > 18` instead of the commented 18:00 bound. -/
theorem daily_window_ceiling_bug :
    daily_guard msess wed1602 = false ∧
    ingest_daily_after_close okEnv wed1602 ["AAPL"] = ([], none) ∧
    daily_guard msess wed1605 = true ∧
    daily_guard msess wed1830 = true ∧
    ingest_daily_after_close okEnv wed1830 ["AAPL"] ≠ ([], none) := by
  decide

/-- Claim C5 counterexample: with the acquire call raising (a failure
outside the per-symbol try region) and the status-write collaborator
also raising, the run-level handler's recovery write fails and the run
procedure propagates that exception to its caller instead of
suppressing it. -/
theorem run_propagates_exception_counterexample :
    run_ingestion envAcquireAndStatusDown false true ["AAPL"] =
      ([Event.acquireCall, Event.statusWrite none (some "rpc down")], some "db down") := by
  decide

/-- Claim C5 (amended): whenever the run-level recovery status write
itself succeeds, nothing propagates: any exception escaping the outer
try block is caught and recorded by an issued status write with
last_success null and last_error the exception text, and the procedure
returns normally. -/
theorem run_failure_caught_and_recorded (env : Env) (i d : Bool) (tks : List String)
    (hst : env.set_ingestion_status = .ok ()) :
    (run_ingestion env i d tks).2 = none ∧
    ∀ e, (mainBody env i d tks).2.2 = .error e →
      Event.statusWrite none (some e) ∈ (run_ingestion env i d tks).1 := by
  rcases hb : mainBody env i d tks with ⟨evs, acq, res⟩
  cases res with
  | ok u =>
    constructor
    · simp [run_ingestion, hb]
    · intro e he
      simp at he
  | error e0 =>
    constructor
    · simp [run_ingestion, hb, hst]
    · intro e he
      simp at he
      subst he
      simp [run_ingestion, hb, hst]

/-- Witness for the amended C5: the acquire call raises, the recovery
write succeeds, the error status write appears in the trace and nothing
propagates. -/
theorem run_failure_caught_and_recorded_witness :
    (run_ingestion envAcquireRaises false true ["AAPL"]).2 = none ∧
    Event.statusWrite none (some "rpc down") ∈
      (run_ingestion envAcquireRaises false true ["AAPL"]).1 :=
  ⟨(run_failure_caught_and_recorded envAcquireRaises false true ["AAPL"] rfl).1,
   (run_failure_caught_and_recorded envAcquireRaises false true ["AAPL"] rfl).2 "rpc down" rfl⟩

/-- Claim C3 counterexample: a run in which the single symbol fully
succeeds — so no exception escapes the per-symbol loop — but the
status-write collaborator raises: the success write (1000, null) is
issued yet the run does not end with it; a run-level error write
follows it, and the run even propagates the failure.  The claim's
unconditional "ends by writing (now, null)" therefore fails. -/
theorem success_write_not_final_counterexample :
    (runLoop envStatusDown false true ["AAPL"]).2 = none ∧
    Event.statusWrite (some 1000) none ∈ (run_ingestion envStatusDown false true ["AAPL"]).1 ∧
    lastStatusWrite (run_ingestion envStatusDown false true ["AAPL"]).1 =
      some (none, some "db down") ∧
    (run_ingestion envStatusDown false true ["AAPL"]).2 = some "db down" := by
  decide

/-- Claim C3 (amended): in every run where acquire() returned true and
the status-write collaborator does not itself fail (which also means no
exception can escape the per-symbol loop, however many symbols failed),
the run ends by issuing the status write (finish time, null): it is the
last status write of the trace, and the procedure returns normally. -/
theorem run_ends_with_success_write (env : Env) (i d : Bool) (tks : List String)
    (ha : env.acquire = .ok true) (hst : env.set_ingestion_status = .ok ()) :
    lastStatusWrite (run_ingestion env i d tks).1 = some (some env.finishTime, none) ∧
    (run_ingestion env i d tks).2 = none := by
  have hesc := runLoop_esc_none env i d hst tks
  rcases hl : runLoop env i d tks with ⟨evs, esc⟩
  rw [hl] at hesc
  simp at hesc
  subst hesc
  simp only [run_ingestion, mainBody, ha, hl, hst]
  constructor
  · simp [lastStatusWrite_append, lastStatusWrite]
  · trivial

/-- Witness for the amended C3: in the all-success environment with one
failing-free ticker the last status write is (1000, null) and nothing
propagates. -/
theorem run_ends_with_success_write_witness :
    lastStatusWrite (run_ingestion okEnv true true ["AAPL", "NVDA"]).1 =
      some (some 1000, none) ∧
    (run_ingestion okEnv true true ["AAPL", "NVDA"]).2 = none :=
  run_ends_with_success_write okEnv true true ["AAPL", "NVDA"] rfl rfl

/-- The per-symbol loop never reads the release collaborator. -/
theorem runLoop_env_release (env : Env) (r : Except Err Bool) (i d : Bool) :
    ∀ l : List String, runLoop { env with release := r } i d l = runLoop env i d l := by
  intro l
  induction l with
  | nil => rfl
  | cons t rest ih =>
    have hpt : processTicker { env with release := r } i d t = processTicker env i d t := rfl
    simp only [runLoop, hpt, ih]

/-- The whole run procedure never reads the release collaborator's
outcome: the source discards release's return value and swallows any
exception it raises. -/
theorem run_env_release (env : Env) (r : Except Err Bool) (i d : Bool) (tks : List String) :
    run_ingestion { env with release := r } i d tks = run_ingestion env i d tks := by
  have h1 : ({ env with release := r } : Env).acquire = env.acquire := rfl
  have h2 : ({ env with release := r } : Env).set_ingestion_status =
      env.set_ingestion_status := rfl
  have h3 : ({ env with release := r } : Env).finishTime = env.finishTime := rfl
  simp only [run_ingestion, mainBody, runLoop_env_release, h1, h2, h3]

/-- Claim C6: the release call is issued exactly once, as the last step,
whenever acquire() returned true — on the normal path, the
partial-failure path and the run-level-failure path alike; it is never
issued when acquire() returned false or raised; and the outcome of the
release call (including a failure) never influences the run's trace or
what it propagates. -/
theorem release_attempted_exactly_once (env : Env) (i d : Bool) (tks : List String) :
    (env.acquire = .ok true →
      ((run_ingestion env i d tks).1.count Event.releaseCall = 1 ∧
        ∃ pre, (run_ingestion env i d tks).1 = pre ++ [Event.releaseCall])) ∧
    (env.acquire = .ok false →
      (run_ingestion env i d tks).1.count Event.releaseCall = 0) ∧
    (∀ e, env.acquire = .error e →
      (run_ingestion env i d tks).1.count Event.releaseCall = 0) ∧
    (∀ r, run_ingestion { env with release := r } i d tks = run_ingestion env i d tks) := by
  refine ⟨?_, ?_, ?_, fun r => run_env_release env r i d tks⟩
  · intro ha
    rcases hl : runLoop env i d tks with ⟨evs, esc⟩
    have hnr : Event.releaseCall ∉ evs := by
      have hr := runLoop_no_release env i d tks
      rw [hl] at hr
      exact hr
    have hcnt : evs.count Event.releaseCall = 0 := List.count_eq_zero.mpr hnr
    cases esc with
    | some e =>
      rcases hs : env.set_ingestion_status with e2 | u <;>
      · constructor
        · simp [run_ingestion, mainBody, ha, hl, hs, List.count_append, List.count_cons, hcnt]
        · refine ⟨Event.acquireCall :: evs ++ [Event.statusWrite none (some e)], ?_⟩
          simp [run_ingestion, mainBody, ha, hl, hs]
    | none =>
      rcases hs : env.set_ingestion_status with e2 | u
      · constructor
        · simp [run_ingestion, mainBody, ha, hl, hs, List.count_append, List.count_cons, hcnt]
        · refine ⟨Event.acquireCall :: (evs ++ [Event.statusWrite (some env.finishTime) none])
            ++ [Event.statusWrite none (some e2)], ?_⟩
          simp [run_ingestion, mainBody, ha, hl, hs]
      · constructor
        · simp [run_ingestion, mainBody, ha, hl, hs, List.count_append, List.count_cons, hcnt]
        · refine ⟨Event.acquireCall :: (evs ++ [Event.statusWrite (some env.finishTime) none]), ?_⟩
          simp [run_ingestion, mainBody, ha, hl, hs]
  · intro ha
    simp [run_ingestion, mainBody, ha]
  · intro e ha
    simp [run_ingestion, mainBody, ha, List.count_cons]

/-- Witness for C6 in the all-success environment: the release is issued
exactly once and last. -/
theorem release_attempted_exactly_once_witness :
    (run_ingestion okEnv true true ["AAPL", "NVDA"]).1.count Event.releaseCall = 1 ∧
    ∃ pre, (run_ingestion okEnv true true ["AAPL", "NVDA"]).1 = pre ++ [Event.releaseCall] :=
  (release_attempted_exactly_once okEnv true true ["AAPL", "NVDA"]).1 rfl

/-- Any intraday fetch event in a whole run trace originates in the body
of one of the processed tickers. -/
theorem run_mem_fetchIntra (env : Env) (i d : Bool) (tks : List String)
    (tk : String) (st : Option Time)
    (h : Event.fetchIntraCall tk st ∈ (run_ingestion env i d tks).1) :
    ∃ t ∈ tks, Event.fetchIntraCall tk st ∈ (tickerBody env i d t).1 := by
  rcases hacq : env.acquire with e | b
  · rcases hs : env.set_ingestion_status with e2 | u <;>
      simp [run_ingestion, mainBody, hacq, hs] at h
  · cases b with
    | false => simp [run_ingestion, mainBody, hacq] at h
    | true =>
      rcases hl : runLoop env i d tks with ⟨evs, esc⟩
      have hm : Event.fetchIntraCall tk st ∈ evs →
          ∃ t ∈ tks, Event.fetchIntraCall tk st ∈ (tickerBody env i d t).1 := by
        intro hmem
        have hmem2 : Event.fetchIntraCall tk st ∈ (runLoop env i d tks).1 := by
          rw [hl]; exact hmem
        rcases runLoop_mem env i d tks _ hmem2 with ⟨t, htl, hpt⟩
        rcases processTicker_mem env i d t _ hpt with hb | ⟨m, hEq⟩
        · exact ⟨t, htl, hb⟩
        · simp at hEq
      cases esc with
      | some e =>
        rcases hs : env.set_ingestion_status with e2 | u <;>
        · simp [run_ingestion, mainBody, hacq, hl, hs] at h
          exact hm h
      | none =>
        rcases hs : env.set_ingestion_status with e2 | u <;>
        · simp [run_ingestion, mainBody, hacq, hl, hs] at h
          exact hm h

/-- When the latest-timestamp lookup for a ticker returns, the intraday
fetch with the derived start instant is always issued by that ticker's
body. -/
theorem tickerBody_fetch_issued (env : Env) (d : Bool) (t : String) (r : Option Time)
    (hgl : env.get_latest_intraday_ts t = .ok r) :
    Event.fetchIntraCall t (Option.map (fun ts => ts - 2 * 86400) r) ∈
      (tickerBody env true d t).1 := by
  rcases hfe : env.fetch_intraday_30m t (Option.map (fun ts => ts - 172800) r) with e | df
  · simp [tickerBody, hgl, hfe]
  · rcases hu : env.upsert_intraday_30m t (filter_to_regular_session df) with e | n
    · simp [tickerBody, hgl, hfe, hu]
    · cases d with
      | false => simp [tickerBody, hgl, hfe, hu]
      | true =>
        rcases hfd : env.fetch_daily_1d t with e | dfd
        · simp [tickerBody, hgl, hfe, hu, hfd]
        · rcases hud : env.upsert_daily_1d t dfd with e | m <;>
            simp [tickerBody, hgl, hfe, hu, hfd, hud]

/-- The issued fetch of `tickerBody_fetch_issued` survives into the
per-symbol iteration's trace. -/
theorem processTicker_fetch_issued (env : Env) (d : Bool) (t : String) (r : Option Time)
    (hgl : env.get_latest_intraday_ts t = .ok r) :
    Event.fetchIntraCall t (Option.map (fun ts => ts - 2 * 86400) r) ∈
      (processTicker env true d t).1 := by
  have hin := tickerBody_fetch_issued env d t r hgl
  rcases htb : tickerBody env true d t with ⟨evs, res⟩
  rw [htb] at hin
  cases res with
  | ok u =>
    simp only [processTicker, htb]
    exact hin
  | error e =>
    rcases hs : env.set_ingestion_status with e2 | u <;>
    · simp only [processTicker, htb, hs]
      exact List.mem_append_left _ hin

/-- Claim C9: on the intraday path, every issued intraday fetch for a
symbol carries exactly the start instant derived from the symbol's
latest persisted timestamp — two days (2 * 86400 s) before it when one
exists, and no start instant when the lookup returned none; conversely,
whenever the lookup returns, the fetch with that derived start is
issued in the symbol's iteration. -/
theorem intraday_fetch_start_two_days_back (env : Env) (d : Bool) (ticker : String) :
    (∀ (tks : List String) (start : Option Time),
        Event.fetchIntraCall ticker start ∈ (run_ingestion env true d tks).1 →
        ∃ r, env.get_latest_intraday_ts ticker = .ok r ∧
          start = Option.map (fun ts => ts - 2 * 86400) r) ∧
    (∀ r, env.get_latest_intraday_ts ticker = .ok r →
        Event.fetchIntraCall ticker (Option.map (fun ts => ts - 2 * 86400) r) ∈
          (processTicker env true d ticker).1) := by
  constructor
  · intro tks start h
    rcases run_mem_fetchIntra env true d tks ticker start h with ⟨t, _, hb⟩
    rcases tickerBody_mem env true d t _ hb with h1 | ⟨r, hgl, h2⟩ | h3 | h4 | h5
    · simp at h1
    · simp only [Event.fetchIntraCall.injEq] at h2
      obtain ⟨h2a, h2b⟩ := h2
      subst h2a
      exact ⟨r, hgl, h2b⟩
    · simp at h3
    · simp at h4
    · simp at h5
  · intro r hgl
    exact processTicker_fetch_issued env d ticker r hgl

/-- Witness for C9: in the all-success environment the lookup returns
timestamp 200000 and the iteration's trace contains the intraday fetch
starting two days earlier. -/
theorem intraday_fetch_start_two_days_back_witness :
    Event.fetchIntraCall "AAPL" (Option.map (fun ts => ts - 2 * 86400) (some 200000)) ∈
      (processTicker okEnv true false "AAPL").1 :=
  (intraday_fetch_start_two_days_back okEnv false "AAPL").2 (some 200000) rfl

/-- Claim C1 counterexample: the claimed scenario — symbols AAPL, BAD,
NVDA, the daily fetch for BAD raises "boom", everything else (including
every status write) succeeds.  The two successful symbols are upserted
and the symbol-qualified error write is issued mid-run, but the run's
final, persisted status write is (finish time 1000, null): its
last_error is null, not "BAD: boom", because the unconditional
run-completion write overwrites the error. -/
theorem final_status_drops_symbol_error_counterexample :
    Event.upsertDailyCall "AAPL" ∈ (run_ingestion envBadDaily false true ["AAPL", "BAD", "NVDA"]).1 ∧
    Event.upsertDailyCall "NVDA" ∈ (run_ingestion envBadDaily false true ["AAPL", "BAD", "NVDA"]).1 ∧
    Event.statusWrite none (some "BAD: boom") ∈
      (run_ingestion envBadDaily false true ["AAPL", "BAD", "NVDA"]).1 ∧
    lastStatusWrite (run_ingestion envBadDaily false true ["AAPL", "BAD", "NVDA"]).1 =
      some (some 1000, none) := by
  decide

/-- Claim C1 (amended): in any run over [AAPL, BAD, NVDA] where the
daily fetch for BAD raises and all other collaborator calls succeed,
both healthy symbols are upserted and the symbol-qualified error status
write (null, "BAD: " ++ message) is issued during the run, but the last
status write of the run is (completion time, null) — the run-completion
write overwrites the symbol error — and the run returns normally. -/
theorem symbol_error_then_success_overwrite (env : Env) (msg : Err)
    (dfA dfN : Frame) (nA nN : Nat)
    (ha : env.acquire = .ok true) (hst : env.set_ingestion_status = .ok ())
    (hfB : env.fetch_daily_1d "BAD" = .error msg)
    (hfA : env.fetch_daily_1d "AAPL" = .ok dfA)
    (hfN : env.fetch_daily_1d "NVDA" = .ok dfN)
    (huA : env.upsert_daily_1d "AAPL" dfA = .ok nA)
    (huN : env.upsert_daily_1d "NVDA" dfN = .ok nN) :
    Event.upsertDailyCall "AAPL" ∈ (run_ingestion env false true ["AAPL", "BAD", "NVDA"]).1 ∧
    Event.upsertDailyCall "NVDA" ∈ (run_ingestion env false true ["AAPL", "BAD", "NVDA"]).1 ∧
    Event.statusWrite none (some ("BAD" ++ ": " ++ msg)) ∈
      (run_ingestion env false true ["AAPL", "BAD", "NVDA"]).1 ∧
    lastStatusWrite (run_ingestion env false true ["AAPL", "BAD", "NVDA"]).1 =
      some (some env.finishTime, none) ∧
    (run_ingestion env false true ["AAPL", "BAD", "NVDA"]).2 = none := by
  have hA : processTicker env false true "AAPL" =
      ([Event.fetchDailyCall "AAPL", Event.upsertDailyCall "AAPL"], none) := by
    simp [processTicker, tickerBody, hfA, huA]
  have hB : processTicker env false true "BAD" =
      ([Event.fetchDailyCall "BAD",
        Event.statusWrite none (some ("BAD" ++ ": " ++ msg))], none) := by
    simp [processTicker, tickerBody, hfB, hst]
  have hN : processTicker env false true "NVDA" =
      ([Event.fetchDailyCall "NVDA", Event.upsertDailyCall "NVDA"], none) := by
    simp [processTicker, tickerBody, hfN, huN]
  have hl : runLoop env false true ["AAPL", "BAD", "NVDA"] =
      ([Event.fetchDailyCall "AAPL", Event.upsertDailyCall "AAPL",
        Event.fetchDailyCall "BAD",
        Event.statusWrite none (some ("BAD" ++ ": " ++ msg)),
        Event.fetchDailyCall "NVDA", Event.upsertDailyCall "NVDA"], none) := by
    simp [runLoop, hA, hB, hN]
  refine ⟨?_, ?_, ?_, ?_, ?_⟩ <;>
    simp [run_ingestion, mainBody, ha, hst, hl, lastStatusWrite]

/-- Witness for the amended C1 in the concrete BAD-fails environment. -/
theorem symbol_error_then_success_overwrite_witness :
    Event.upsertDailyCall "AAPL" ∈ (run_ingestion envBadDaily false true ["AAPL", "BAD", "NVDA"]).1 ∧
    Event.upsertDailyCall "NVDA" ∈ (run_ingestion envBadDaily false true ["AAPL", "BAD", "NVDA"]).1 ∧
    Event.statusWrite none (some ("BAD" ++ ": " ++ "boom")) ∈
      (run_ingestion envBadDaily false true ["AAPL", "BAD", "NVDA"]).1 ∧
    lastStatusWrite (run_ingestion envBadDaily false true ["AAPL", "BAD", "NVDA"]).1 =
      some (some envBadDaily.finishTime, none) ∧
    (run_ingestion envBadDaily false true ["AAPL", "BAD", "NVDA"]).2 = none :=
  symbol_error_then_success_overwrite envBadDaily "boom" [] [] 1 1
    rfl rfl rfl rfl rfl rfl rfl
